import Mathlib

/-!
Verification of the CL-Ops common layer (`src/cl_ops/common/clo_common.h`):
the work-size arithmetic macros (`CLO_DIV_CEIL`, `CLO_GWS_MULT`), the
algorithm-lookup scan macro (`CLO_ALG_GET`), the numeric type registry
(`CloType`, `clo_type_get_name`, `clo_type_sizeof`, `clo_type_by_name`)
and the next-power-of-two routine (`clo_nlpo2`).

The header gives the macros, the enums and the function prototypes; the
bodies of the registry accessors and of `clo_nlpo2` live in `clo_common.c`,
which is not part of the available sources, so those bodies are modelled
from the design document (each such definition is marked below).
-/

/-! ## Work-size arithmetic (from the header macros) -/

/-- `CLO_DIV_CEIL(a, b) = ((a + b - 1) / b)`, translated over `Nat`
(the macro is untyped; this is its value whenever the C arithmetic does
not overflow). -/
def CLO_DIV_CEIL (a b : Nat) : Nat := (a + b - 1) / b

/-- `CLO_GWS_MULT(gws, lws) = (lws * CLO_DIV_CEIL(gws, lws))`. -/
def CLO_GWS_MULT (gws lws : Nat) : Nat := lws * CLO_DIV_CEIL gws lws

/-- `CLO_DIV_CEIL` at the `unsigned int` (32-bit) instantiation: the sum
`a + b - 1` wraps modulo `2^32` before the division. -/
def clo_div_ceil_u32 (a b : Nat) : Nat := ((a + b - 1) % 2 ^ 32) / b

/-! ## Error codes and type tags (from the header enums) -/

/-- `CLO_ERROR_UNKNOWN_TYPE = 6` in `enum clo_error_codes`. -/
def CLO_ERROR_UNKNOWN_TYPE : Nat := 6

/-- `CLO_CHAR = 0` in the `CloType` enum. -/
def CLO_CHAR : Nat := 0

/-- `CLO_UCHAR = 1` in the `CloType` enum. -/
def CLO_UCHAR : Nat := 1

/-- `CLO_SHORT = 2` in the `CloType` enum. -/
def CLO_SHORT : Nat := 2

/-- `CLO_USHORT = 3` in the `CloType` enum. -/
def CLO_USHORT : Nat := 3

/-- `CLO_INT = 4` in the `CloType` enum. -/
def CLO_INT : Nat := 4

/-- `CLO_UINT = 5` in the `CloType` enum. -/
def CLO_UINT : Nat := 5

/-- `CLO_LONG = 6` in the `CloType` enum. -/
def CLO_LONG : Nat := 6

/-- `CLO_ULONG = 7` in the `CloType` enum. -/
def CLO_ULONG : Nat := 7

/-- `CLO_HALF = 8` in the `CloType` enum. -/
def CLO_HALF : Nat := 8

/-- `CLO_FLOAT = 9` in the `CloType` enum. -/
def CLO_FLOAT : Nat := 9

/-- `CLO_DOUBLE = 10` in the `CloType` enum. -/
def CLO_DOUBLE : Nat := 10

/-! ## The lookup scan (from the `CLO_ALG_GET` macro) -/

/-- GLib's `g_str_has_prefix(str, tag)`: `true` exactly when `str`
begins with `tag` (modelled character-wise on the underlying lists). -/
def gStrHasPrefix (str tag : String) : Bool :=
  List.isPrefixOf tag.data str.data

/-- The `CLO_ALG_GET(info, info_v, arg_tag)` macro: walk the vector in
order until the sentinel; on the first entry whose tag is a prefix of
`arg_tag`, assign that entry to `info` and stop.  `info` is the value the
output variable holds before the scan; the list models the entries in
front of the sentinel. -/
def CLO_ALG_GET {α : Type} (info : α) (info_v : List (String × α)) (arg_tag : String) : α :=
  match info_v with
  | [] => info
  | (tag, entry) :: rest =>
    if gStrHasPrefix arg_tag tag then entry else CLO_ALG_GET info rest arg_tag

/-! ## The type registry (modelled from the spec) -/

/-- Modelled from the spec: the registry table of `clo_common.c` is not
among the available sources.  One descriptor `(name, kind, size_bytes)`
per `CloType` value, in declaration order; the canonical names are the
lowercase OpenCL type names matching the enum constants, and the sizes
are the spec's table `{1,1,2,2,4,4,8,8,2,4,8}`. -/
def clo_types : List (String × Nat × Nat) :=
  [("char", CLO_CHAR, 1), ("uchar", CLO_UCHAR, 1),
   ("short", CLO_SHORT, 2), ("ushort", CLO_USHORT, 2),
   ("int", CLO_INT, 4), ("uint", CLO_UINT, 4),
   ("long", CLO_LONG, 8), ("ulong", CLO_ULONG, 8),
   ("half", CLO_HALF, 2), ("float", CLO_FLOAT, 4),
   ("double", CLO_DOUBLE, 8)]

/-- The registry as `(name, kind)` pairs, in declaration order. -/
def clo_type_registry : List (String × Nat) :=
  clo_types.map (fun e => (e.1, e.2.1))

/-- Modelled from the spec: body of `clo_type_get_name` is not among the
available sources.  Returns the descriptor's name for a valid kind and
fails with `CLO_ERROR_UNKNOWN_TYPE` on an out-of-range kind. -/
def clo_type_get_name (t : Nat) : Except Nat String :=
  match clo_types.get? t with
  | some e => Except.ok e.1
  | none => Except.error CLO_ERROR_UNKNOWN_TYPE

/-- Modelled from the spec: body of `clo_type_sizeof` is not among the
available sources.  Returns the descriptor's byte size for a valid kind
and fails with `CLO_ERROR_UNKNOWN_TYPE` on an out-of-range kind. -/
def clo_type_sizeof (t : Nat) : Except Nat Nat :=
  match clo_types.get? t with
  | some e => Except.ok e.2.2
  | none => Except.error CLO_ERROR_UNKNOWN_TYPE

/-- Modelled from the spec: body of `clo_type_by_name` is not among the
available sources.  Scans the registry with the header's `CLO_ALG_GET`
macro (first entry whose name is a prefix of the supplied string wins)
and fails with `CLO_ERROR_UNKNOWN_TYPE` when no entry matches. -/
def clo_type_by_name (name : String) : Except Nat Nat :=
  match CLO_ALG_GET none (clo_type_registry.map (fun p => (p.1, some p.2))) name with
  | some t => Except.ok t
  | none => Except.error CLO_ERROR_UNKNOWN_TYPE

/-! ## Next power of two (modelled from the spec) -/

/-- The bit-smearing cascade of `clo_nlpo2`: OR the value with itself
shifted right by 1, 2, 4, 8 and 16 bit positions successively. -/
def clo_nlpo2_smear (y : Nat) : Nat :=
  let a := y ||| (y >>> 1)
  let b := a ||| (a >>> 2)
  let c := b ||| (b >>> 4)
  let d := c ||| (c >>> 8)
  d ||| (d >>> 16)

/-- Modelled from the spec: body of `clo_nlpo2` is not among the
available sources (the header only declares
`unsigned int clo_nlpo2(unsigned int x)`).  The spec's contract is the
smallest power of two greater than or equal to `x`, with
`next_pow2(1) = 1` and `next_pow2(1024) = 1024`, computed by the classic
bit-smearing cascade; to meet those values the argument is decremented
before the smear and incremented after, the standard form of that
algorithm. -/
def clo_nlpo2 (x : Nat) : Nat := clo_nlpo2_smear (x - 1) + 1

/-! ## Helper lemmas -/

instance exceptDecEq {ε α : Type} [DecidableEq ε] [DecidableEq α] :
    DecidableEq (Except ε α) := fun x y =>
  match x, y with
  | Except.ok a, Except.ok b =>
    if h : a = b then isTrue (by rw [h])
    else isFalse (fun hc => h (Except.ok.inj hc))
  | Except.error a, Except.error b =>
    if h : a = b then isTrue (by rw [h])
    else isFalse (fun hc => h (Except.error.inj hc))
  | Except.ok _, Except.error _ => isFalse (fun hc => Except.noConfusion hc)
  | Except.error _, Except.ok _ => isFalse (fun hc => Except.noConfusion hc)

theorem clo_div_ceil_le_iff (a b c : Nat) (hb : 0 < b) :
    CLO_DIV_CEIL a b ≤ c ↔ a ≤ b * c := by
  unfold CLO_DIV_CEIL
  rw [Nat.div_le_iff_le_mul_add_pred hb]
  omega

/-- Claim C1: for every global size `g` and positive local size `l`,
`CLO_GWS_MULT g l` is at least `g`, is divisible by `l`, is less than
`g + l`, and is the smallest multiple of `l` that is at least `g`. -/
theorem clo_gws_mult_correct (g l : Nat) (hl : 0 < l) :
    g ≤ CLO_GWS_MULT g l ∧ CLO_GWS_MULT g l % l = 0 ∧ CLO_GWS_MULT g l < g + l ∧
      ∀ m, g ≤ m → m % l = 0 → CLO_GWS_MULT g l ≤ m := by
  have hle : g ≤ CLO_GWS_MULT g l := by
    have h := (clo_div_ceil_le_iff g l (CLO_DIV_CEIL g l) hl).mp (Nat.le_refl _)
    simpa [CLO_GWS_MULT] using h
  have hdc : CLO_DIV_CEIL g l = (g + l - 1) / l := rfl
  have hmod : CLO_GWS_MULT g l % l = 0 := by
    simp [CLO_GWS_MULT, Nat.mul_mod_right]
  have hlt : CLO_GWS_MULT g l < g + l := by
    have hda := Nat.div_add_mod (g + l - 1) l
    have hml : (g + l - 1) % l < l := Nat.mod_lt _ hl
    have : CLO_GWS_MULT g l = l * ((g + l - 1) / l) := rfl
    omega
  refine ⟨hle, hmod, hlt, ?_⟩
  intro m hgm hml
  have hm : l * (m / l) = m := by
    have := Nat.div_add_mod m l
    omega
  have hq : CLO_DIV_CEIL g l ≤ m / l := by
    rw [clo_div_ceil_le_iff g l (m / l) hl, hm]
    exact hgm
  calc CLO_GWS_MULT g l = l * CLO_DIV_CEIL g l := rfl
    _ ≤ l * (m / l) := Nat.mul_le_mul_left l hq
    _ = m := hm

/-- Witness for C1 at `g = 100`, `l = 64`. -/
theorem clo_gws_mult_correct_witness :
    0 < 64 ∧ (100 ≤ CLO_GWS_MULT 100 64 ∧ CLO_GWS_MULT 100 64 % 64 = 0 ∧
      CLO_GWS_MULT 100 64 < 100 + 64 ∧
      ∀ m, 100 ≤ m → m % 64 = 0 → CLO_GWS_MULT 100 64 ≤ m) ∧
    CLO_GWS_MULT 100 64 = 128 :=
  ⟨by decide, clo_gws_mult_correct 100 64 (by decide), by decide⟩

/-- Claim C2: for every numerator `a` and positive denominator `b`,
`CLO_DIV_CEIL a b` is the ceiling of `a / b`, characterised by its
universal property `CLO_DIV_CEIL a b ≤ c ↔ a ≤ b * c`; in particular
`CLO_DIV_CEIL 10 3 = 4` and `CLO_DIV_CEIL 9 3 = 3`. -/
theorem clo_div_ceil_correct (a b : Nat) (hb : 0 < b) :
    (∀ c, CLO_DIV_CEIL a b ≤ c ↔ a ≤ b * c) ∧
      CLO_DIV_CEIL 10 3 = 4 ∧ CLO_DIV_CEIL 9 3 = 3 :=
  ⟨fun c => clo_div_ceil_le_iff a b c hb, by decide, by decide⟩

/-- Witness for C2 at `a = 10`, `b = 3`. -/
theorem clo_div_ceil_correct_witness :
    0 < 3 ∧ (CLO_DIV_CEIL 10 3 ≤ 4 ↔ 10 ≤ 3 * 4) ∧
      CLO_DIV_CEIL 10 3 = 4 ∧ CLO_DIV_CEIL 9 3 = 3 :=
  ⟨by decide, (clo_div_ceil_correct 10 3 (by decide)).1 4,
    (clo_div_ceil_correct 10 3 (by decide)).2⟩

/-- Claim C10: at the `unsigned int` instantiation the sum `a + b - 1`
wraps modulo `2^32`, so at `a = 2^32 - 1`, `b = 2` the macro yields `0`,
strictly less than the true ceiling (the unwrapped value
`CLO_DIV_CEIL (2^32 - 1) 2 = 2^31`). -/
theorem clo_div_ceil_u32_overflow :
    clo_div_ceil_u32 (2 ^ 32 - 1) 2 = 0 ∧
      clo_div_ceil_u32 (2 ^ 32 - 1) 2 < CLO_DIV_CEIL (2 ^ 32 - 1) 2 := by
  constructor
  · norm_num [clo_div_ceil_u32]
  · norm_num [clo_div_ceil_u32, CLO_DIV_CEIL]

/-! ## Scan lemmas for the registry lookups -/

theorem alg_get_none_of_no_match {α : Type} (v : List (String × α)) (t : String)
    (h : ∀ p ∈ v, gStrHasPrefix t p.1 = false) :
    CLO_ALG_GET none (v.map fun p => (p.1, some p.2)) t = none := by
  induction v with
  | nil => rfl
  | cons hd rest ih =>
    have hhd := h hd (List.mem_cons_self hd rest)
    simp only [List.map_cons, CLO_ALG_GET, hhd, if_false, Bool.false_eq_true]
    exact ih (fun p hp => h p (List.mem_cons_of_mem hd hp))

theorem alg_get_first {α : Type} (v : List (String × α)) (t : String) (i : Nat)
    (h : i < v.length)
    (hm : gStrHasPrefix t (v.get ⟨i, h⟩).1 = true)
    (hb : ∀ q ∈ v.take i, gStrHasPrefix t q.1 = false) :
    CLO_ALG_GET none (v.map fun p => (p.1, some p.2)) t = some (v.get ⟨i, h⟩).2 := by
  induction v generalizing i with
  | nil => exact absurd h (by simp)
  | cons hd rest ih =>
    cases i with
    | zero =>
      simp only [List.get] at hm ⊢
      simp only [List.map_cons, CLO_ALG_GET, hm, if_true]
    | succ j =>
      have hhd : gStrHasPrefix t hd.1 = false := by
        apply hb hd
        simp [List.take]
      simp only [List.get] at hm ⊢
      simp only [List.map_cons, CLO_ALG_GET, hhd, if_false, Bool.false_eq_true]
      exact ih j (Nat.lt_of_succ_lt_succ h) hm
        (fun q hq => hb q (by simp [List.take, hq]))

theorem alg_get_some_exists {α : Type} (v : List (String × α)) (t : String) :
    (∃ a, CLO_ALG_GET none (v.map fun p => (p.1, some p.2)) t = some a) ↔
      ∃ p ∈ v, gStrHasPrefix t p.1 = true := by
  induction v with
  | nil => simp [CLO_ALG_GET]
  | cons hd rest ih =>
    by_cases hhd : gStrHasPrefix t hd.1 = true
    · constructor
      · intro _; exact ⟨hd, List.mem_cons_self hd rest, hhd⟩
      · intro _
        refine ⟨hd.2, ?_⟩
        simp only [List.map_cons, CLO_ALG_GET, hhd, if_true]
    · have hhd' : gStrHasPrefix t hd.1 = false := by
        cases hg : gStrHasPrefix t hd.1
        · rfl
        · exact absurd hg hhd
      constructor
      · intro ⟨a, ha⟩
        simp only [List.map_cons, CLO_ALG_GET, hhd', if_false, Bool.false_eq_true] at ha
        obtain ⟨p, hp, hpm⟩ := ih.mp ⟨a, ha⟩
        exact ⟨p, List.mem_cons_of_mem hd hp, hpm⟩
      · intro ⟨p, hp, hpm⟩
        rcases List.mem_cons.mp hp with rfl | hp'
        · exact absurd hpm hhd
        · obtain ⟨a, ha⟩ := ih.mpr ⟨p, hp', hpm⟩
          refine ⟨a, ?_⟩
          simp only [List.map_cons, CLO_ALG_GET, hhd', if_false, Bool.false_eq_true]
          exact ha

theorem alg_get_unique {α : Type} (v : List (String × α)) (t : String) (p : String × α)
    (hp : p ∈ v) (hm : gStrHasPrefix t p.1 = true)
    (hu : ∀ q ∈ v, gStrHasPrefix t q.1 = true → q = p) :
    CLO_ALG_GET none (v.map fun p => (p.1, some p.2)) t = some p.2 := by
  induction v with
  | nil => exact absurd hp (List.not_mem_nil p)
  | cons hd rest ih =>
    by_cases hhd : gStrHasPrefix t hd.1 = true
    · have : hd = p := hu hd (List.mem_cons_self hd rest) hhd
      subst this
      simp only [List.map_cons, CLO_ALG_GET, hhd, if_true]
    · have hhd' : gStrHasPrefix t hd.1 = false := by
        cases hg : gStrHasPrefix t hd.1
        · rfl
        · exact absurd hg hhd
      have hp' : p ∈ rest := by
        rcases List.mem_cons.mp hp with rfl | hp'
        · exact absurd hm hhd
        · exact hp'
      simp only [List.map_cons, CLO_ALG_GET, hhd', if_false, Bool.false_eq_true]
      exact ih hp' (fun q hq => hu q (List.mem_cons_of_mem hd hq))

/-- Claim C3: `clo_type_by_name` (via the `CLO_ALG_GET` scan) succeeds
exactly when some registry entry's name is a prefix of the supplied
string, and when entry `i` matches while no earlier entry does, it
returns entry `i`'s kind (first match in declaration order wins). -/
theorem clo_type_by_name_scan (s : String) :
    ((∃ k, clo_type_by_name s = Except.ok k) ↔
      ∃ p ∈ clo_type_registry, gStrHasPrefix s p.1 = true) ∧
    ∀ i (h : i < clo_type_registry.length),
      gStrHasPrefix s (clo_type_registry.get ⟨i, h⟩).1 = true →
      (∀ q ∈ clo_type_registry.take i, gStrHasPrefix s q.1 = false) →
      clo_type_by_name s = Except.ok (clo_type_registry.get ⟨i, h⟩).2 := by
  constructor
  · constructor
    · rintro ⟨k, hk⟩
      rcases hscan : CLO_ALG_GET none (clo_type_registry.map fun p => (p.1, some p.2)) s
        with _ | a
      · exfalso
        unfold clo_type_by_name at hk
        rw [hscan] at hk
        exact Except.noConfusion hk
      · exact (alg_get_some_exists clo_type_registry s).mp ⟨a, hscan⟩
    · intro hex
      obtain ⟨a, ha⟩ := (alg_get_some_exists clo_type_registry s).mpr hex
      refine ⟨a, ?_⟩
      unfold clo_type_by_name
      rw [ha]
  · intro i h hm hb
    have hfirst := alg_get_first clo_type_registry s i h hm hb
    unfold clo_type_by_name
    rw [hfirst]

/-- Witness for C3: `"uintx"` has the registry name `"uint"` (entry 5) as
a prefix and no earlier entry matches, so the lookup returns `CLO_UINT`. -/
theorem clo_type_by_name_scan_witness :
    clo_type_by_name "uintx" = Except.ok CLO_UINT :=
  (clo_type_by_name_scan "uintx").2 5 (by decide) (by decide) (by decide)

/-- Counterexample to claim C4: `"cha"` is a proper prefix of exactly one
registered name (`"char"`), yet the lookup fails, because the scan tests
whether the registered name is a prefix of the input, not the reverse. -/
theorem clo_type_by_name_proper_prefix_fails :
    (clo_type_registry.filter
        (fun p => gStrHasPrefix p.1 "cha" && !(p.1 == "cha"))).length = 1 ∧
      clo_type_by_name "cha" = Except.error CLO_ERROR_UNKNOWN_TYPE := by
  decide

/-- Claim C4 (amended): for every input string of which exactly one
registered entry's name is a prefix, `clo_type_by_name` succeeds and
returns that entry's kind. -/
theorem clo_type_by_name_unique_match (s : String) (p : String × Nat)
    (hp : p ∈ clo_type_registry) (hm : gStrHasPrefix s p.1 = true)
    (hu : ∀ q ∈ clo_type_registry, gStrHasPrefix s q.1 = true → q = p) :
    clo_type_by_name s = Except.ok p.2 := by
  have huniq := alg_get_unique clo_type_registry s p hp hm hu
  unfold clo_type_by_name
  rw [huniq]

/-- Witness for the amended C4: `"double"` is the unique registered name
that is a prefix of `"doublez"`. -/
theorem clo_type_by_name_unique_match_witness :
    clo_type_by_name "doublez" = Except.ok 10 :=
  clo_type_by_name_unique_match "doublez" ("double", 10)
    (by decide) (by decide) (by decide)

/-- Claim C9: when no entry's tag is a prefix of the supplied tag, the
`CLO_ALG_GET` scan assigns nothing: the output variable keeps the value
it held before the scan, and the macro signals no error (it has no error
channel at all — its result is just the unchanged variable). -/
theorem clo_alg_get_frame {α : Type} (info : α) (info_v : List (String × α))
    (arg_tag : String)
    (h : ∀ p ∈ info_v, gStrHasPrefix arg_tag p.1 = false) :
    CLO_ALG_GET info info_v arg_tag = info := by
  induction info_v with
  | nil => rfl
  | cons hd rest ih =>
    have hhd := h hd (List.mem_cons_self hd rest)
    simp only [CLO_ALG_GET, hhd, if_false, Bool.false_eq_true]
    exact ih (fun p hp => h p (List.mem_cons_of_mem hd hp))

/-- Witness for C9: a one-entry vector whose tag does not match leaves
the prior value `99` in place. -/
theorem clo_alg_get_frame_witness :
    CLO_ALG_GET 99 [("abc", 1)] "xyz" = 99 :=
  clo_alg_get_frame 99 [("abc", 1)] "xyz" (by decide)

/-- Claim C5: for the 11 `CloType` values in declaration order,
`clo_type_sizeof` returns the byte widths `{1,1,2,2,4,4,8,8,2,4,8}`. -/
theorem clo_type_sizeof_table :
    clo_type_sizeof CLO_CHAR = Except.ok 1 ∧ clo_type_sizeof CLO_UCHAR = Except.ok 1 ∧
    clo_type_sizeof CLO_SHORT = Except.ok 2 ∧ clo_type_sizeof CLO_USHORT = Except.ok 2 ∧
    clo_type_sizeof CLO_INT = Except.ok 4 ∧ clo_type_sizeof CLO_UINT = Except.ok 4 ∧
    clo_type_sizeof CLO_LONG = Except.ok 8 ∧ clo_type_sizeof CLO_ULONG = Except.ok 8 ∧
    clo_type_sizeof CLO_HALF = Except.ok 2 ∧ clo_type_sizeof CLO_FLOAT = Except.ok 4 ∧
    clo_type_sizeof CLO_DOUBLE = Except.ok 8 :=
  ⟨rfl, rfl, rfl, rfl, rfl, rfl, rfl, rfl, rfl, rfl, rfl⟩

/-- Claim C6: every valid kind's name round-trips through
`clo_type_by_name` with exact-match input, and the registered names are
pairwise distinct. -/
theorem clo_type_name_roundtrip :
    (∀ t, t < 11 →
      ∃ n, clo_type_get_name t = Except.ok n ∧ clo_type_by_name n = Except.ok t) ∧
    (clo_types.map fun e => e.1).Nodup := by
  constructor
  · intro t ht
    interval_cases t <;> exact ⟨_, rfl, by decide⟩
  · decide

/-- Witness for C6 at kind `0` (`"char"`). -/
theorem clo_type_name_roundtrip_witness :
    ∃ n, clo_type_get_name 0 = Except.ok n ∧ clo_type_by_name n = Except.ok 0 :=
  clo_type_name_roundtrip.1 0 (by decide)

/-- Claim C7: `clo_type_get_name` and `clo_type_sizeof` on a kind outside
the 11 valid values, and `clo_type_by_name` on a string of which no
registered name is a prefix, each fail with `CLO_ERROR_UNKNOWN_TYPE`. -/
theorem clo_type_unknown_type_errors :
    (∀ t, 11 ≤ t →
      clo_type_get_name t = Except.error CLO_ERROR_UNKNOWN_TYPE ∧
        clo_type_sizeof t = Except.error CLO_ERROR_UNKNOWN_TYPE) ∧
    ∀ s, (∀ p ∈ clo_type_registry, gStrHasPrefix s p.1 = false) →
      clo_type_by_name s = Except.error CLO_ERROR_UNKNOWN_TYPE := by
  constructor
  · intro t ht
    have hnone : clo_types.get? t = none := by
      apply List.get?_eq_none.mpr
      have : clo_types.length = 11 := rfl
      omega
    constructor
    · unfold clo_type_get_name
      rw [hnone]
    · unfold clo_type_sizeof
      rw [hnone]
  · intro s hs
    have hnone := alg_get_none_of_no_match clo_type_registry s hs
    unfold clo_type_by_name
    rw [hnone]

/-- Witness for C7 at kind `11` and at the unmatched string `"zzz"`. -/
theorem clo_type_unknown_type_errors_witness :
    (clo_type_get_name 11 = Except.error CLO_ERROR_UNKNOWN_TYPE ∧
      clo_type_sizeof 11 = Except.error CLO_ERROR_UNKNOWN_TYPE) ∧
    clo_type_by_name "zzz" = Except.error CLO_ERROR_UNKNOWN_TYPE :=
  ⟨clo_type_unknown_type_errors.1 11 (by decide),
    clo_type_unknown_type_errors.2 "zzz" (by decide)⟩

/-! ## Bit-smearing lemmas for `clo_nlpo2` -/

theorem testBit_or_shift_iff {y s m : Nat}
    (hs : ∀ i, s.testBit i = true ↔ ∃ j, j < m ∧ y.testBit (i + j) = true) (i : Nat) :
    (s ||| s >>> m).testBit i = true ↔ ∃ j, j < 2 * m ∧ y.testBit (i + j) = true := by
  rw [Nat.testBit_or, Nat.testBit_shiftRight, Bool.or_eq_true, hs, hs]
  constructor
  · rintro (⟨j, hj, hb⟩ | ⟨j, hj, hb⟩)
    · exact ⟨j, by omega, hb⟩
    · refine ⟨m + j, by omega, ?_⟩
      have he : i + (m + j) = m + i + j := by omega
      rw [he]
      exact hb
  · rintro ⟨j, hj, hb⟩
    by_cases hc : j < m
    · exact Or.inl ⟨j, hc, hb⟩
    · refine Or.inr ⟨j - m, by omega, ?_⟩
      have he : m + i + (j - m) = i + j := by omega
      rw [he]
      exact hb

theorem clo_nlpo2_smear_testBit (y i : Nat) :
    (clo_nlpo2_smear y).testBit i = true ↔ ∃ j, j < 32 ∧ y.testBit (i + j) = true := by
  have hbase : ∀ i, y.testBit i = true ↔ ∃ j, j < 1 ∧ y.testBit (i + j) = true := by
    intro i
    constructor
    · intro h
      exact ⟨0, Nat.zero_lt_one, by simpa using h⟩
    · rintro ⟨j, hj, hb⟩
      have hj0 : j = 0 := by omega
      subst hj0
      simpa using hb
  have h1 := fun i => testBit_or_shift_iff hbase i
  have h2 := fun i => testBit_or_shift_iff h1 i
  have h3 := fun i => testBit_or_shift_iff h2 i
  have h4 := fun i => testBit_or_shift_iff h3 i
  have h5 := fun i => testBit_or_shift_iff h4 i
  exact h5 i

theorem clo_nlpo2_smear_eq (y : Nat) (hy : y < 2 ^ 32) :
    clo_nlpo2_smear y = 2 ^ Nat.size y - 1 := by
  apply Nat.eq_of_testBit_eq
  intro i
  rw [Nat.testBit_two_pow_sub_one]
  by_cases hi : i < Nat.size y
  · rw [decide_eq_true hi]
    apply (clo_nlpo2_smear_testBit y i).mpr
    have hsz : Nat.size y ≤ 32 := Nat.size_le.mpr hy
    refine ⟨Nat.size y - 1 - i, by omega, ?_⟩
    have he : i + (Nat.size y - 1 - i) = Nat.size y - 1 := by omega
    rw [he]
    have h1 : 2 ^ (Nat.size y - 1) ≤ y := Nat.lt_size.mp (by omega)
    have h2 : y < 2 ^ Nat.size y := Nat.lt_size_self y
    have hp : 0 < 2 ^ (Nat.size y - 1) := Nat.two_pow_pos _
    have hpow : (2 : Nat) ^ Nat.size y = 2 * 2 ^ (Nat.size y - 1) := by
      conv_lhs => rw [show Nat.size y = (Nat.size y - 1) + 1 by omega]
      rw [Nat.pow_succ]
      ring
    have hdiv : y / 2 ^ (Nat.size y - 1) = 1 := by
      have hle : 1 ≤ y / 2 ^ (Nat.size y - 1) :=
        (Nat.le_div_iff_mul_le hp).mpr (by omega)
      have hlt : y / 2 ^ (Nat.size y - 1) < 2 := by
        rw [Nat.div_lt_iff_lt_mul hp]
        omega
      omega
    rw [Nat.testBit_to_div_mod, hdiv]
    decide
  · rw [decide_eq_false hi]
    cases hbit : (clo_nlpo2_smear y).testBit i with
    | false => rfl
    | true =>
      exfalso
      obtain ⟨j, hj, hb⟩ := (clo_nlpo2_smear_testBit y i).mp hbit
      have hlt : y < 2 ^ (i + j) := by
        have h2 : y < 2 ^ Nat.size y := Nat.lt_size_self y
        have hmono : 2 ^ Nat.size y ≤ 2 ^ (i + j) :=
          Nat.pow_le_pow_right (by omega) (by omega)
        omega
      rw [Nat.testBit_lt_two_pow hlt] at hb
      exact Bool.noConfusion hb

/-- Claim C8: for every `x > 0` in the `unsigned int` domain,
`clo_nlpo2 x` is a power of two, is at least `x`, and is at most every
power of two that is at least `x` (so it is the smallest power of two
greater than or equal to `x`); in particular `clo_nlpo2 1 = 1`,
`clo_nlpo2 5 = 8` and `clo_nlpo2 1024 = 1024`. -/
theorem clo_nlpo2_correct (x : Nat) (hx : 0 < x) (hx32 : x ≤ 2 ^ 32) :
    (∃ k, clo_nlpo2 x = 2 ^ k) ∧ x ≤ clo_nlpo2 x ∧
      (∀ k, x ≤ 2 ^ k → clo_nlpo2 x ≤ 2 ^ k) ∧
      clo_nlpo2 1 = 1 ∧ clo_nlpo2 5 = 8 ∧ clo_nlpo2 1024 = 1024 := by
  have hy : x - 1 < 2 ^ 32 := by omega
  have hs := clo_nlpo2_smear_eq (x - 1) hy
  have hnl : clo_nlpo2 x = 2 ^ Nat.size (x - 1) := by
    unfold clo_nlpo2
    rw [hs]
    have hp : 0 < 2 ^ Nat.size (x - 1) := Nat.two_pow_pos _
    omega
  refine ⟨⟨Nat.size (x - 1), hnl⟩, ?_, ?_, by decide, by decide, by decide⟩
  · rw [hnl]
    have := Nat.lt_size_self (x - 1)
    omega
  · intro k hk
    rw [hnl]
    apply Nat.pow_le_pow_right (by omega)
    apply Nat.size_le.mpr
    omega

/-- Witness for C8 at `x = 5`. -/
theorem clo_nlpo2_correct_witness :
    0 < 5 ∧ 5 ≤ 2 ^ 32 ∧ 5 ≤ clo_nlpo2 5 ∧ clo_nlpo2 5 = 8 :=
  ⟨by decide, by decide, (clo_nlpo2_correct 5 (by decide) (by decide)).2.1, by decide⟩
